import Mathlib

/-!
Verification of the Sierra dithering engine in `dither-cards.js`.

The grayscale working buffer (a `Float32Array` in the source) is modelled as a
total function `ℕ → ℚ` with exact rational arithmetic; the RGBA byte buffer is
a `List ℕ` in row-major interleaved order.  Out-of-range byte reads (possible
only for malformed buffers, which the source never guards against) are
modelled as 0.
-/

/-- RGBA image buffer: width, height and row-major interleaved byte data,
mirroring the `ImageData` object consumed by `SierraDithering.process`. -/
structure ImageData where
  width : ℕ
  height : ℕ
  data : List ℕ
deriving DecidableEq

/-- The Sierra dithering matrix (error distribution), as in the constructor of
`SierraDithering`. -/
def matrix : List (List ℚ) :=
  [[0, 0, 5/32, 3/32],
   [2/32, 4/32, 5/32, 4/32, 2/32],
   [0, 2/32, 3/32, 2/32, 0]]

/-- Entry `matrix[r][c]` of the dithering matrix. -/
def mat (r c : ℕ) : ℚ := (matrix.getD r []).getD c 0

/-- One `grayscale[i] += v` statement acting on the grayscale buffer. -/
def updAdd (g : ℕ → ℚ) (i : ℕ) (v : ℚ) : ℕ → ℚ :=
  fun j => if j = i then g j + v else g j

/-- A guarded `if (cond) { grayscale[i] += v }` statement. -/
def addIf (c : Prop) [Decidable c] (g : ℕ → ℚ) (i : ℕ) (v : ℚ) : ℕ → ℚ :=
  if c then updAdd g i v else g

/-- Row 0 of `distributeErrorGrayscale`: current row, pixels to the right. -/
def row0 (g : ℕ → ℚ) (x y width : ℕ) (error : ℚ) : ℕ → ℚ :=
  addIf (x + 3 < width)
    (addIf (x + 2 < width) g (y * width + (x + 2)) (error * mat 0 2))
    (y * width + (x + 3)) (error * mat 0 3)

/-- Row 1 of `distributeErrorGrayscale`: the next row.  The guards `2 ≤ x` and
`1 ≤ x` are the source's `x - 2 >= 0` and `x - 1 >= 0`. -/
def row1 (g : ℕ → ℚ) (x y width height : ℕ) (error : ℚ) : ℕ → ℚ :=
  if y + 1 < height then
    addIf (x + 2 < width)
      (addIf (x + 1 < width)
        (updAdd
          (addIf (1 ≤ x)
            (addIf (2 ≤ x) g ((y + 1) * width + (x - 2)) (error * mat 1 0))
            ((y + 1) * width + (x - 1)) (error * mat 1 1))
          ((y + 1) * width + x) (error * mat 1 2))
        ((y + 1) * width + (x + 1)) (error * mat 1 3))
      ((y + 1) * width + (x + 2)) (error * mat 1 4)
  else g

/-- Row 2 of `distributeErrorGrayscale`: two rows down. -/
def row2 (g : ℕ → ℚ) (x y width height : ℕ) (error : ℚ) : ℕ → ℚ :=
  if y + 2 < height then
    addIf (x + 1 < width)
      (updAdd
        (addIf (1 ≤ x) g ((y + 2) * width + (x - 1)) (error * mat 2 1))
        ((y + 2) * width + x) (error * mat 2 2))
      ((y + 2) * width + (x + 1)) (error * mat 2 3)
  else g

/-- `SierraDithering.distributeErrorGrayscale`: rows 0, 1 and 2 applied in the
source's statement order. -/
def distributeErrorGrayscale (grayscale : ℕ → ℚ) (x y width height : ℕ)
    (error : ℚ) : ℕ → ℚ :=
  row2 (row1 (row0 grayscale x y width error) x y width height error)
    x y width height error

/-- Perceptual luminance of one pixel, as in the grayscale conversion loop:
`0.299 * data[idx] + 0.587 * data[idx + 1] + 0.114 * data[idx + 2]`. -/
def luminance (r g b : ℕ) : ℚ :=
  0.299 * (r : ℚ) + 0.587 * (g : ℚ) + 0.114 * (b : ℚ)

/-- The grayscale working buffer built by the first loop of `process`: one
luminance entry per pixel index `i < width * height`. -/
def toGrayscale (width height : ℕ) (data : List ℕ) : ℕ → ℚ :=
  fun i =>
    if i < width * height then
      luminance (data.getD (i * 4) 0) (data.getD (i * 4 + 1) 0)
        (data.getD (i * 4 + 2) 0)
    else 0

/-- The black branch of the per-pixel write: R=G=B=0, A=255. -/
def writeBlack (data : List ℕ) (idx : ℕ) : List ℕ :=
  (((data.set idx 0).set (idx + 1) 0).set (idx + 2) 0).set (idx + 3) 255

/-- The transparent branch of the per-pixel write: R=G=B=0, A=0. -/
def writeTransparent (data : List ℕ) (idx : ℕ) : List ℕ :=
  (((data.set idx 0).set (idx + 1) 0).set (idx + 2) 0).set (idx + 3) 0

/-- The body of the per-pixel dithering loop of `process`: threshold at 60,
write the stencil pixel, then distribute the error. -/
def ditherStep (width height : ℕ) (st : (ℕ → ℚ) × List ℕ) (x y : ℕ) :
    (ℕ → ℚ) × List ℕ :=
  let i := y * width + x
  let idx := i * 4
  let oldPixel := st.1 i
  let newPixel : ℚ := if oldPixel < 60 then 0 else 255
  let error := oldPixel - newPixel
  let data := if newPixel = 0 then writeBlack st.2 idx else writeTransparent st.2 idx
  (distributeErrorGrayscale st.1 x y width height error, data)

/-- The inner `for (x = 0; x < width; x++)` loop of `process` at row `y`. -/
def processRow (width height y : ℕ) (st : (ℕ → ℚ) × List ℕ) :
    (ℕ → ℚ) × List ℕ :=
  (List.range width).foldl (fun st x => ditherStep width height st x y) st

/-- The outer `for (y = 0; y < height; y++)` loop of `process`. -/
def scanImage (width height : ℕ) (st : (ℕ → ℚ) × List ℕ) :
    (ℕ → ℚ) × List ℕ :=
  (List.range height).foldl (fun st y => processRow width height y st) st

/-- Full state of `process`: grayscale conversion first, then the scan. -/
def processState (width height : ℕ) (data : List ℕ) : (ℕ → ℚ) × List ℕ :=
  scanImage width height (toGrayscale width height data, data)

/-- `SierraDithering.process`: returns the mutated image data. -/
def process (imageData : ImageData) : ImageData :=
  ImageData.mk imageData.width imageData.height
    (processState imageData.width imageData.height imageData.data).2

/-- Pointwise weight received by buffer index `j` from row 0 of the kernel at
pixel `(x, y)`. -/
def pw0 (x y width : ℕ) (j : ℕ) : ℚ :=
  (if x + 2 < width ∧ j = y * width + (x + 2) then (5:ℚ)/32 else 0) +
  (if x + 3 < width ∧ j = y * width + (x + 3) then (3:ℚ)/32 else 0)

/-- Pointwise weight received by buffer index `j` from row 1 of the kernel at
pixel `(x, y)`. -/
def pw1 (x y width height : ℕ) (j : ℕ) : ℚ :=
  if y + 1 < height then
    (if 2 ≤ x ∧ j = (y + 1) * width + (x - 2) then (2:ℚ)/32 else 0) +
    (if 1 ≤ x ∧ j = (y + 1) * width + (x - 1) then (4:ℚ)/32 else 0) +
    (if j = (y + 1) * width + x then (5:ℚ)/32 else 0) +
    (if x + 1 < width ∧ j = (y + 1) * width + (x + 1) then (4:ℚ)/32 else 0) +
    (if x + 2 < width ∧ j = (y + 1) * width + (x + 2) then (2:ℚ)/32 else 0)
  else 0

/-- Pointwise weight received by buffer index `j` from row 2 of the kernel at
pixel `(x, y)`. -/
def pw2 (x y width height : ℕ) (j : ℕ) : ℚ :=
  if y + 2 < height then
    (if 1 ≤ x ∧ j = (y + 2) * width + (x - 1) then (2:ℚ)/32 else 0) +
    (if j = (y + 2) * width + x then (3:ℚ)/32 else 0) +
    (if x + 1 < width ∧ j = (y + 2) * width + (x + 1) then (2:ℚ)/32 else 0)
  else 0

/-- Total pointwise weight received by buffer index `j` from the kernel. -/
def pw (x y width height : ℕ) (j : ℕ) : ℚ :=
  pw0 x y width j + pw1 x y width height j + pw2 x y width height j

/-- Sum of the kernel weights whose guards pass at pixel `(x, y)`. -/
def pwTotal (x y width height : ℕ) : ℚ :=
  ((if x + 2 < width then (5:ℚ)/32 else 0) +
   (if x + 3 < width then (3:ℚ)/32 else 0)) +
  (if y + 1 < height then
    (if 2 ≤ x then (2:ℚ)/32 else 0) + (if 1 ≤ x then (4:ℚ)/32 else 0) +
    (5:ℚ)/32 + (if x + 1 < width then (4:ℚ)/32 else 0) +
    (if x + 2 < width then (2:ℚ)/32 else 0)
  else 0) +
  (if y + 2 < height then
    (if 1 ≤ x then (2:ℚ)/32 else 0) + (3:ℚ)/32 +
    (if x + 1 < width then (2:ℚ)/32 else 0)
  else 0)

/-- Total error diffused into the grayscale buffer by one call of
`distributeErrorGrayscale`: the sum of all entry changes. -/
def diffusedTotal (g : ℕ → ℚ) (x y width height : ℕ) (error : ℚ) : ℚ :=
  ∑ j in Finset.range (width * height),
    (distributeErrorGrayscale g x y width height error j - g j)

/-- The output stencil shape at pixel `p`: colour channels zero and alpha
either 0 or 255. -/
def StencilAt (data : List ℕ) (p : ℕ) : Prop :=
  data.getD (p * 4) 0 = 0 ∧ data.getD (p * 4 + 1) 0 = 0 ∧
  data.getD (p * 4 + 2) 0 = 0 ∧
  (data.getD (p * 4 + 3) 0 = 0 ∨ data.getD (p * 4 + 3) 0 = 255)

/-- Opaque black output at pixel `p`: colour channels zero and alpha 255. -/
def BlackAt (data : List ℕ) (p : ℕ) : Prop :=
  data.getD (p * 4) 0 = 0 ∧ data.getD (p * 4 + 1) 0 = 0 ∧
  data.getD (p * 4 + 2) 0 = 0 ∧ data.getD (p * 4 + 3) 0 = 255

/-- Simulation invariant between two scans that started from the same
grayscale buffer: equal grayscale state, equal data length, and data bytes
equal except possibly alpha bytes of pixels not yet processed (scan position
`n` pixels). -/
def SimInv (n : ℕ) (s1 s2 : (ℕ → ℚ) × List ℕ) : Prop :=
  s1.1 = s2.1 ∧ s1.2.length = s2.2.length ∧
  ∀ j, s1.2.getD j 0 = s2.2.getD j 0 ∨ (j % 4 = 3 ∧ n * 4 ≤ j)

/-- Sample 3x1 image: luminances 50, 0, 55.  Pixel 2 ends above the threshold
only because of the error diffused from pixel 0. -/
def scanSample : ImageData :=
  ImageData.mk 3 1 [50, 50, 50, 255, 0, 0, 0, 255, 55, 55, 55, 255]

/-- Sample 4x1 image with every luminance equal to 10. -/
def fourImg : ImageData :=
  ImageData.mk 4 1 [10, 10, 10, 255, 10, 10, 10, 255, 10, 10, 10, 255, 10, 10, 10, 255]

/-- Modelled from the spec: the hypothetical variant that classifies every
pixel against a frozen copy of the original luminance instead of the
accumulated buffer (the behaviour §8 "Scan-order dependency" rules out).
This definition follows the spec's words and exists only to be compared with
`process`. -/
def processFrozen (imageData : ImageData) : ImageData :=
  ImageData.mk imageData.width imageData.height
    ((List.range (imageData.width * imageData.height)).foldl
      (fun d i =>
        if toGrayscale imageData.width imageData.height imageData.data i < 60
        then writeBlack d (i * 4) else writeTransparent d (i * 4))
      imageData.data)

theorem mat02 : mat 0 2 = 5/32 := rfl
theorem mat03 : mat 0 3 = 3/32 := rfl
theorem mat10 : mat 1 0 = 2/32 := rfl
theorem mat11 : mat 1 1 = 4/32 := rfl
theorem mat12 : mat 1 2 = 5/32 := rfl
theorem mat13 : mat 1 3 = 4/32 := rfl
theorem mat14 : mat 1 4 = 2/32 := rfl
theorem mat21 : mat 2 1 = 2/32 := rfl
theorem mat22 : mat 2 2 = 3/32 := rfl
theorem mat23 : mat 2 3 = 2/32 := rfl

theorem updAdd_apply (g : ℕ → ℚ) (i : ℕ) (v : ℚ) (j : ℕ) :
    updAdd g i v j = if j = i then g j + v else g j := rfl

theorem addIf_apply (c : Prop) [Decidable c] (g : ℕ → ℚ) (i : ℕ) (v : ℚ)
    (j : ℕ) : addIf c g i v j = if c ∧ j = i then g j + v else g j := by
  by_cases hc : c <;> simp [addIf, updAdd, hc]

theorem row0_apply (g : ℕ → ℚ) (x y w : ℕ) (e : ℚ) (j : ℕ) :
    row0 g x y w e j = g j + e * pw0 x y w j := by
  rw [row0, pw0]
  simp only [addIf_apply, mat02, mat03]
  split_ifs <;> ring

theorem row1_apply (g : ℕ → ℚ) (x y w h : ℕ) (e : ℚ) (j : ℕ) :
    row1 g x y w h e j = g j + e * pw1 x y w h j := by
  rw [row1, pw1]
  by_cases hr : y + 1 < h
  · rw [if_pos hr, if_pos hr]
    simp only [addIf_apply, updAdd_apply, mat10, mat11, mat12, mat13, mat14]
    split_ifs <;> ring
  · rw [if_neg hr, if_neg hr]
    ring

theorem row2_apply (g : ℕ → ℚ) (x y w h : ℕ) (e : ℚ) (j : ℕ) :
    row2 g x y w h e j = g j + e * pw2 x y w h j := by
  rw [row2, pw2]
  by_cases hr : y + 2 < h
  · rw [if_pos hr, if_pos hr]
    simp only [addIf_apply, updAdd_apply, mat21, mat22, mat23]
    split_ifs <;> ring
  · rw [if_neg hr, if_neg hr]
    ring

/-- Pointwise characterization of `distributeErrorGrayscale`. -/
theorem distribute_apply (g : ℕ → ℚ) (x y w h : ℕ) (e : ℚ) (j : ℕ) :
    distributeErrorGrayscale g x y w h e j = g j + e * pw x y w h j := by
  rw [distributeErrorGrayscale, row2_apply, row1_apply, row0_apply, pw]
  ring

/-- Row-major index bound: a target in row `r < height`, column `c < width`
lies inside the buffer. -/
theorem target_lt (r c width height : ℕ) (hc : c < width) (hr : r < height) :
    r * width + c < width * height := by
  calc r * width + c < r * width + width := by omega
    _ = (r + 1) * width := by ring
    _ ≤ height * width := Nat.mul_le_mul_right width hr
    _ = width * height := Nat.mul_comm height width

/-- Bound used to feed `omega` with the only nonlinear facts it needs. -/
theorem rows_le (y k width height : ℕ) (hk : y + k ≤ height) :
    y * width + k * width ≤ width * height := by
  calc y * width + k * width = (y + k) * width := by ring
    _ ≤ height * width := Nat.mul_le_mul_right width hk
    _ = width * height := Nat.mul_comm height width

theorem sum_ite_and (c : Prop) [Decidable c] (t n : ℕ) (v : ℚ)
    (hin : c → t < n) :
    (∑ j in Finset.range n, if c ∧ j = t then v else 0) = if c then v else 0 := by
  by_cases hc : c
  · simp only [hc, true_and, if_true]
    rw [Finset.sum_ite_eq' (Finset.range n) t (fun _ => v)]
    simp [Finset.mem_range.mpr (hin hc)]
  · simp [hc]

theorem sum_ite_target (t n : ℕ) (v : ℚ) (hin : t < n) :
    (∑ j in Finset.range n, if j = t then v else 0) = v := by
  rw [Finset.sum_ite_eq' (Finset.range n) t (fun _ => v)]
  simp [Finset.mem_range.mpr hin]

/-- Summing the pointwise kernel weights over the whole buffer gives the sum
of the in-bounds kernel weights. -/
theorem sum_pw (x y w h : ℕ) (hx : x < w) (hy : y < h) :
    ∑ j in Finset.range (w * h), pw x y w h j = pwTotal x y w h := by
  rw [pwTotal]
  simp only [pw]
  rw [Finset.sum_add_distrib, Finset.sum_add_distrib]
  congr 1
  congr 1
  · simp only [pw0]
    rw [Finset.sum_add_distrib,
        sum_ite_and _ _ _ _ (fun hc => target_lt y (x + 2) w h hc hy),
        sum_ite_and _ _ _ _ (fun hc => target_lt y (x + 3) w h hc hy)]
  · simp only [pw1]
    by_cases hr : y + 1 < h
    · simp only [hr, if_true]
      rw [Finset.sum_add_distrib, Finset.sum_add_distrib,
          Finset.sum_add_distrib, Finset.sum_add_distrib,
          sum_ite_and _ _ _ _ (fun _ => target_lt (y + 1) (x - 2) w h (by omega) hr),
          sum_ite_and _ _ _ _ (fun _ => target_lt (y + 1) (x - 1) w h (by omega) hr),
          sum_ite_target _ _ _ (target_lt (y + 1) x w h hx hr),
          sum_ite_and _ _ _ _ (fun hc => target_lt (y + 1) (x + 1) w h hc hr),
          sum_ite_and _ _ _ _ (fun hc => target_lt (y + 1) (x + 2) w h hc hr)]
    · simp [hr]
  · simp only [pw2]
    by_cases hr : y + 2 < h
    · simp only [hr, if_true]
      rw [Finset.sum_add_distrib, Finset.sum_add_distrib,
          sum_ite_and _ _ _ _ (fun _ => target_lt (y + 2) (x - 1) w h (by omega) hr),
          sum_ite_target _ _ _ (target_lt (y + 2) x w h hx hr),
          sum_ite_and _ _ _ _ (fun hc => target_lt (y + 2) (x + 1) w h hc hr)]
    · simp [hr]

theorem pw0_eq_zero (x y w h j : ℕ) (hx : x < w) (hy : y < h)
    (hj : j ≤ y * w + x ∨ w * h ≤ j) : pw0 x y w j = 0 := by
  have hb1 : y + 1 ≤ h → y * w + 1 * w ≤ w * h := rows_le y 1 w h
  rw [pw0]
  split_ifs <;> first | (exfalso; omega) | ring1

theorem pw1_eq_zero (x y w h j : ℕ) (hx : x < w) (hy : y < h)
    (hj : j ≤ y * w + x ∨ w * h ≤ j) : pw1 x y w h j = 0 := by
  have hm1 : (y + 1) * w = y * w + 1 * w := by ring
  have hb2 : y + 2 ≤ h → y * w + 2 * w ≤ w * h := rows_le y 2 w h
  rw [pw1]
  split_ifs <;> first | (exfalso; omega) | ring1

theorem pw2_eq_zero (x y w h j : ℕ) (hx : x < w) (hy : y < h)
    (hj : j ≤ y * w + x ∨ w * h ≤ j) : pw2 x y w h j = 0 := by
  have hm2 : (y + 2) * w = y * w + 2 * w := by ring
  have hb3 : y + 3 ≤ h → y * w + 3 * w ≤ w * h := rows_le y 3 w h
  rw [pw2]
  split_ifs <;> first | (exfalso; omega) | ring1

/-- Indices at or before the scan position, and indices outside the buffer,
receive no kernel weight. -/
theorem pw_eq_zero (x y w h j : ℕ) (hx : x < w) (hy : y < h)
    (hj : j ≤ y * w + x ∨ w * h ≤ j) : pw x y w h j = 0 := by
  rw [pw, pw0_eq_zero x y w h j hx hy hj, pw1_eq_zero x y w h j hx hy hj,
      pw2_eq_zero x y w h j hx hy hj]
  ring

/-- Diffusing a zero error leaves the grayscale buffer unchanged. -/
theorem distribute_zero (g : ℕ → ℚ) (x y w h : ℕ) :
    distributeErrorGrayscale g x y w h 0 = g :=
  funext fun j => by rw [distribute_apply]; ring

/-- The total diffused error is the error times the sum of the in-bounds
kernel weights. -/
theorem diffusedTotal_eq (g : ℕ → ℚ) (x y w h : ℕ) (e : ℚ)
    (hx : x < w) (hy : y < h) :
    diffusedTotal g x y w h e = e * pwTotal x y w h := by
  rw [diffusedTotal, ← sum_pw x y w h hx hy, Finset.mul_sum]
  exact Finset.sum_congr rfl fun j _ => by rw [distribute_apply]; ring

/-- For an interior pixel every guard passes and the weights sum to one. -/
theorem pwTotal_interior (x y w h : ℕ) (h2 : 2 ≤ x) (h3 : x + 3 < w)
    (hh : y + 2 < h) : pwTotal x y w h = 1 := by
  have c1 : x + 2 < w := by omega
  have c3 : y + 1 < h := by omega
  have c4 : 1 ≤ x := by omega
  have c5 : x + 1 < w := by omega
  rw [pwTotal]
  simp only [c1, h3, c3, c4, c5, h2, hh, if_true]
  norm_num

theorem pwTotal_nonneg (x y w h : ℕ) : 0 ≤ pwTotal x y w h := by
  rw [pwTotal]
  split_ifs <;> norm_num

/-- At a non-interior pixel at least one kernel write is dropped, so the
in-bounds weights sum to strictly less than one. -/
theorem pwTotal_lt_one (x y w h : ℕ)
    (hedge : ¬(2 ≤ x ∧ x + 3 < w ∧ y + 2 < h)) : pwTotal x y w h < 1 := by
  rw [pwTotal]
  split_ifs <;> first | (exfalso; omega) | norm_num

/-- C2: for every pixel (x, y) (interior, so that every guard passes), the
diffusion step adds error * weight to the grayscale buffer at exactly the ten
relative offsets (0,+2) 5/32, (0,+3) 3/32, (+1,-2) 2/32, (+1,-1) 4/32,
(+1,0) 5/32, (+1,+1) 4/32, (+1,+2) 2/32, (+2,-1) 2/32, (+2,0) 3/32,
(+2,+1) 2/32, and to no other offsets. -/
theorem c2_kernel_offsets (g : ℕ → ℚ) (x y w h : ℕ) (e : ℚ) (j : ℕ)
    (h2 : 2 ≤ x) (h3 : x + 3 < w) (hh : y + 2 < h) :
    distributeErrorGrayscale g x y w h e j = g j + e *
      ((if j = y * w + (x + 2) then (5:ℚ)/32 else 0) +
       (if j = y * w + (x + 3) then (3:ℚ)/32 else 0) +
       (if j = (y + 1) * w + (x - 2) then (2:ℚ)/32 else 0) +
       (if j = (y + 1) * w + (x - 1) then (4:ℚ)/32 else 0) +
       (if j = (y + 1) * w + x then (5:ℚ)/32 else 0) +
       (if j = (y + 1) * w + (x + 1) then (4:ℚ)/32 else 0) +
       (if j = (y + 1) * w + (x + 2) then (2:ℚ)/32 else 0) +
       (if j = (y + 2) * w + (x - 1) then (2:ℚ)/32 else 0) +
       (if j = (y + 2) * w + x then (3:ℚ)/32 else 0) +
       (if j = (y + 2) * w + (x + 1) then (2:ℚ)/32 else 0)) := by
  have c1 : x + 2 < w := by omega
  have c3 : y + 1 < h := by omega
  have c4 : 1 ≤ x := by omega
  have c5 : x + 1 < w := by omega
  rw [distribute_apply]
  have hpw : pw x y w h j =
      (if j = y * w + (x + 2) then (5:ℚ)/32 else 0) +
      (if j = y * w + (x + 3) then (3:ℚ)/32 else 0) +
      (if j = (y + 1) * w + (x - 2) then (2:ℚ)/32 else 0) +
      (if j = (y + 1) * w + (x - 1) then (4:ℚ)/32 else 0) +
      (if j = (y + 1) * w + x then (5:ℚ)/32 else 0) +
      (if j = (y + 1) * w + (x + 1) then (4:ℚ)/32 else 0) +
      (if j = (y + 1) * w + (x + 2) then (2:ℚ)/32 else 0) +
      (if j = (y + 2) * w + (x - 1) then (2:ℚ)/32 else 0) +
      (if j = (y + 2) * w + x then (3:ℚ)/32 else 0) +
      (if j = (y + 2) * w + (x + 1) then (2:ℚ)/32 else 0) := by
    rw [pw, pw0, pw1, pw2]
    simp only [c1, h3, c3, c4, c5, h2, hh, if_true, true_and]
    ring
  rw [hpw]

theorem c2_kernel_offsets_witness :
    (2 ≤ 2 ∧ 2 + 3 < 6 ∧ 0 + 2 < 3) ∧
    distributeErrorGrayscale (fun _ => (0:ℚ)) 2 0 6 3 1 4 = (fun _ => (0:ℚ)) 4 + 1 *
      ((if 4 = 0 * 6 + (2 + 2) then (5:ℚ)/32 else 0) +
       (if 4 = 0 * 6 + (2 + 3) then (3:ℚ)/32 else 0) +
       (if 4 = (0 + 1) * 6 + (2 - 2) then (2:ℚ)/32 else 0) +
       (if 4 = (0 + 1) * 6 + (2 - 1) then (4:ℚ)/32 else 0) +
       (if 4 = (0 + 1) * 6 + 2 then (5:ℚ)/32 else 0) +
       (if 4 = (0 + 1) * 6 + (2 + 1) then (4:ℚ)/32 else 0) +
       (if 4 = (0 + 1) * 6 + (2 + 2) then (2:ℚ)/32 else 0) +
       (if 4 = (0 + 2) * 6 + (2 - 1) then (2:ℚ)/32 else 0) +
       (if 4 = (0 + 2) * 6 + 2 then (3:ℚ)/32 else 0) +
       (if 4 = (0 + 2) * 6 + (2 + 1) then (2:ℚ)/32 else 0)) :=
  ⟨by decide,
   c2_kernel_offsets (fun _ => (0:ℚ)) 2 0 6 3 1 4 (by decide) (by decide) (by decide)⟩

/-- C5: error contributions are added only at in-bounds targets: no write ever
occurs at or beyond the buffer end (first conjunct); dropped contributions are
discarded outright, so the bottom-right corner pixel diffuses nothing at all
(second conjunct, ruling out wrapping or clamping); and the total error
diffused from a non-interior pixel is strictly smaller in magnitude than the
total diffused from an interior pixel with the same error (third conjunct). -/
theorem c5_edge_truncation (g gI : ℕ → ℚ) (x y w h xI yI wI hI j : ℕ) (e : ℚ)
    (hx : x < w) (hy : y < h) (hj : w * h ≤ j)
    (hedge : ¬(2 ≤ x ∧ x + 3 < w ∧ y + 2 < h))
    (hI2 : 2 ≤ xI) (hI3 : xI + 3 < wI) (hIh : yI + 2 < hI) (he : e ≠ 0) :
    distributeErrorGrayscale g x y w h e j = g j ∧
    distributeErrorGrayscale g (w - 1) (h - 1) w h e = g ∧
    |diffusedTotal g x y w h e| < |diffusedTotal gI xI yI wI hI e| := by
  refine ⟨?_, ?_, ?_⟩
  · rw [distribute_apply, pw_eq_zero x y w h j hx hy (Or.inr hj)]
    ring
  · funext k
    rw [distribute_apply]
    have n1 : ¬(w - 1 + 2 < w) := by omega
    have n2 : ¬(w - 1 + 3 < w) := by omega
    have n3 : ¬(h - 1 + 1 < h) := by omega
    have n4 : ¬(h - 1 + 2 < h) := by omega
    have hz : pw (w - 1) (h - 1) w h k = 0 := by
      rw [pw, pw0, pw1, pw2]
      simp [n1, n2, n3, n4]
    rw [hz]
    ring
  · rw [diffusedTotal_eq g x y w h e hx hy,
        diffusedTotal_eq gI xI yI wI hI e (by omega) (by omega),
        pwTotal_interior xI yI wI hI hI2 hI3 hIh, mul_one]
    have hlt := pwTotal_lt_one x y w h hedge
    have hnn := pwTotal_nonneg x y w h
    have habs : 0 < |e| := abs_pos.mpr he
    calc |e * pwTotal x y w h| = |e| * pwTotal x y w h := by
          rw [abs_mul, abs_of_nonneg hnn]
      _ < |e| * 1 := mul_lt_mul_of_pos_left (by linarith) habs
      _ = |e| := mul_one _

theorem c5_edge_truncation_witness :
    ((0:ℕ) < 1 ∧ (0:ℕ) < 1 ∧ 1 * 1 ≤ 1 ∧ ¬(2 ≤ 0 ∧ 0 + 3 < 1 ∧ 0 + 2 < 1) ∧
      2 ≤ 2 ∧ 2 + 3 < 6 ∧ 0 + 2 < 3 ∧ (1:ℚ) ≠ 0) ∧
    (distributeErrorGrayscale (fun _ => (0:ℚ)) 0 0 1 1 1 1 = (fun _ => (0:ℚ)) 1 ∧
     distributeErrorGrayscale (fun _ => (0:ℚ)) (1 - 1) (1 - 1) 1 1 1 = (fun _ => (0:ℚ)) ∧
     |diffusedTotal (fun _ => (0:ℚ)) 0 0 1 1 1| <
       |diffusedTotal (fun _ => (0:ℚ)) 2 0 6 3 1|) :=
  ⟨⟨by decide, by decide, by decide, by decide, by decide, by decide, by decide, by decide⟩,
   c5_edge_truncation (fun _ => (0:ℚ)) (fun _ => (0:ℚ)) 0 0 1 1 2 0 6 3 1 1
     (by decide) (by decide) (by decide) (by decide) (by decide) (by decide)
     (by decide) (by decide)⟩

/-- C7: the ten literal kernel weights sum to exactly one, and consequently
for a fully-interior pixel the total diffused error equals the error: all
diffused error is conserved. -/
theorem c7_weight_conservation (g : ℕ → ℚ) (x y w h : ℕ) (e : ℚ)
    (h2 : 2 ≤ x) (h3 : x + 3 < w) (hh : y + 2 < h) :
    mat 0 2 + mat 0 3 + mat 1 0 + mat 1 1 + mat 1 2 + mat 1 3 + mat 1 4 +
      mat 2 1 + mat 2 2 + mat 2 3 = 1 ∧
    diffusedTotal g x y w h e = e := by
  constructor
  · rw [mat02, mat03, mat10, mat11, mat12, mat13, mat14, mat21, mat22, mat23]
    norm_num
  · rw [diffusedTotal_eq g x y w h e (by omega) (by omega),
        pwTotal_interior x y w h h2 h3 hh, mul_one]

theorem c7_weight_conservation_witness :
    (2 ≤ 2 ∧ 2 + 3 < 6 ∧ 0 + 2 < 3) ∧
    (mat 0 2 + mat 0 3 + mat 1 0 + mat 1 1 + mat 1 2 + mat 1 3 + mat 1 4 +
       mat 2 1 + mat 2 2 + mat 2 3 = 1 ∧
     diffusedTotal (fun _ => (0:ℚ)) 2 0 6 3 1 = 1) :=
  ⟨by decide,
   c7_weight_conservation (fun _ => (0:ℚ)) 2 0 6 3 1 (by decide) (by decide) (by decide)⟩

/-- C8: the scan is a single forward pass: diffusion from pixel (x, y) never
modifies a grayscale entry at or before scan position y*w+x (first conjunct),
and the output genuinely reflects accumulated diffusion: on the 3x1 sample it
differs from the spec-modelled frozen-copy variant, whose pixel 2 would be
classified from the original luminance 55 instead of the diffused 62.8125
(second conjunct). -/
theorem c8_forward_scan_order (g : ℕ → ℚ) (x y w h j : ℕ) (e : ℚ)
    (hx : x < w) (hy : y < h) (hj : j ≤ y * w + x) :
    distributeErrorGrayscale g x y w h e j = g j ∧
    process scanSample ≠ processFrozen scanSample := by
  constructor
  · rw [distribute_apply, pw_eq_zero x y w h j hx hy (Or.inl hj)]
    ring
  · have h1 : process scanSample
        = ImageData.mk 3 1 [0, 0, 0, 255, 0, 0, 0, 255, 0, 0, 0, 0] := by
      norm_num [process, processState, scanImage, processRow, scanSample,
        show List.range 1 = [0] from rfl, show List.range 3 = [0, 1, 2] from rfl,
        List.foldl, ditherStep, distributeErrorGrayscale, row0, row1, row2,
        addIf, updAdd, toGrayscale, luminance, writeBlack, writeTransparent,
        mat, matrix]
    have h2 : processFrozen scanSample
        = ImageData.mk 3 1 [0, 0, 0, 255, 0, 0, 0, 255, 0, 0, 0, 255] := by
      norm_num [processFrozen, scanSample, show List.range 3 = [0, 1, 2] from rfl,
        List.foldl, toGrayscale, luminance, writeBlack, writeTransparent]
    rw [h1, h2]
    decide

theorem c8_forward_scan_order_witness :
    ((0:ℕ) < 1 ∧ (0:ℕ) < 1 ∧ (0:ℕ) ≤ 0 * 1 + 0) ∧
    (distributeErrorGrayscale (fun _ => (0:ℚ)) 0 0 1 1 1 0 = (fun _ => (0:ℚ)) 0 ∧
     process scanSample ≠ processFrozen scanSample) :=
  ⟨⟨by decide, by decide, by decide⟩,
   c8_forward_scan_order (fun _ => (0:ℚ)) 0 0 1 1 0 1 (by decide) (by decide) (by decide)⟩

theorem foldl_processRow_zero (h : ℕ) (l : List ℕ) (st : (ℕ → ℚ) × List ℕ) :
    l.foldl (fun st y => processRow 0 h y st) st = st := by
  induction l generalizing st with
  | nil => rfl
  | cons a l ih => exact ih st

/-- C6 (amended): `process` performs no input validation at all: a zero-width
or zero-height image is processed as a trivial no-op that returns the buffer
unchanged, whatever the data buffer's length. -/
theorem c6_no_validation (w h : ℕ) (d : List ℕ) (hzero : w = 0 ∨ h = 0) :
    process (ImageData.mk w h d) = ImageData.mk w h d := by
  rcases hzero with hw | hh
  · subst hw
    show ImageData.mk 0 h (scanImage 0 h (toGrayscale 0 h d, d)).2 = ImageData.mk 0 h d
    rw [scanImage, foldl_processRow_zero h (List.range h) _]
  · subst hh
    rfl

theorem c6_no_validation_witness :
    ((0:ℕ) = 0 ∨ (5:ℕ) = 0) ∧
    process (ImageData.mk 0 5 [1, 2, 3]) = ImageData.mk 0 5 [1, 2, 3] :=
  ⟨Or.inl rfl, c6_no_validation 0 5 [1, 2, 3] (Or.inl rfl)⟩

/-- C6 (counterexample): the zero-sized input is not rejected: `process`
returns it unchanged, a trivial no-op, contradicting the claim that the
engine rejects such inputs before any processing. -/
theorem c6_zero_input_not_rejected :
    process (ImageData.mk 0 0 []) = ImageData.mk 0 0 [] := rfl

/-- C9 (amended): the 4x1 image with luminances [10, 10, 10, 10] yields four
opaque black pixels, but error DOES propagate inside the row: pixels 0 and 1
diffuse into pixels 2 and 3, whose adjusted luminances end at 185/16 and 25/2
instead of 10 (both still below the threshold). -/
theorem c9_four_black_with_propagation :
    process fourImg
      = ImageData.mk 4 1 [0, 0, 0, 255, 0, 0, 0, 255, 0, 0, 0, 255, 0, 0, 0, 255] ∧
    (processState 4 1 fourImg.data).1 2 = 185/16 ∧
    (processState 4 1 fourImg.data).1 3 = 25/2 := by
  refine ⟨?_, ?_, ?_⟩ <;>
    norm_num [process, processState, scanImage, processRow, fourImg,
      show List.range 1 = [0] from rfl, show List.range 4 = [0, 1, 2, 3] from rfl,
      List.foldl, ditherStep, distributeErrorGrayscale, row0, row1, row2,
      addIf, updAdd, toGrayscale, luminance, writeBlack, writeTransparent,
      mat, matrix]

/-- C9 (counterexample): on the 4x1 image with luminances [10, 10, 10, 10]
the grayscale entry of pixel 2 is modified by diffusion (10 becomes 185/16),
contradicting the claim that there is no error propagation because the buffer
ends before the kernel can write. -/
theorem c9_error_does_propagate :
    ¬ (processState 4 1 fourImg.data).1 2 = toGrayscale 4 1 fourImg.data 2 := by
  norm_num [process, processState, scanImage, processRow, fourImg,
    show List.range 1 = [0] from rfl, show List.range 4 = [0, 1, 2, 3] from rfl,
    List.foldl, ditherStep, distributeErrorGrayscale, row0, row1, row2,
    addIf, updAdd, toGrayscale, luminance, writeBlack, writeTransparent,
    mat, matrix]

theorem getD_set {α : Type} (l : List α) (i j : ℕ) (a d : α) :
    (l.set i a).getD j d = if i = j ∧ i < l.length then a else l.getD j d := by
  rw [List.getD_eq_getElem?_getD, List.getElem?_set]
  by_cases hij : i = j
  · by_cases hlen : i < l.length
    · subst hij
      rw [if_pos rfl, if_pos hlen, if_pos ⟨rfl, hlen⟩]
      rfl
    · subst hij
      rw [if_pos rfl, if_neg hlen, if_neg (fun hand => hlen hand.2)]
      rw [List.getD_eq_default l d (Nat.le_of_not_lt hlen)]
      rfl
  · rw [if_neg hij, if_neg (fun hand => hij hand.1), List.getD_eq_getElem?_getD]

theorem getD_writeBlack (d : List ℕ) (idx j : ℕ) :
    (writeBlack d idx).getD j 0 =
      if idx + 3 = j ∧ idx + 3 < d.length then 255
      else if idx + 2 = j ∧ idx + 2 < d.length then 0
      else if idx + 1 = j ∧ idx + 1 < d.length then 0
      else if idx = j ∧ idx < d.length then 0
      else d.getD j 0 := by
  rw [writeBlack, getD_set, getD_set, getD_set, getD_set]
  simp only [List.length_set]

theorem getD_writeTransparent (d : List ℕ) (idx j : ℕ) :
    (writeTransparent d idx).getD j 0 =
      if idx + 3 = j ∧ idx + 3 < d.length then 0
      else if idx + 2 = j ∧ idx + 2 < d.length then 0
      else if idx + 1 = j ∧ idx + 1 < d.length then 0
      else if idx = j ∧ idx < d.length then 0
      else d.getD j 0 := by
  rw [writeTransparent, getD_set, getD_set, getD_set, getD_set]
  simp only [List.length_set]

/-- The data half of one dithering step: the branch on `newPixel` reduces to a
branch on the threshold comparison. -/
theorem ditherStep_data (w h : ℕ) (st : (ℕ → ℚ) × List ℕ) (x y : ℕ) :
    (ditherStep w h st x y).2
      = if st.1 (y * w + x) < 60 then writeBlack st.2 ((y * w + x) * 4)
        else writeTransparent st.2 ((y * w + x) * 4) := by
  rw [ditherStep]
  by_cases hc : st.1 (y * w + x) < 60 <;> norm_num [hc]

theorem ditherStep_length (w h : ℕ) (st : (ℕ → ℚ) × List ℕ) (x y : ℕ) :
    (ditherStep w h st x y).2.length = st.2.length := by
  rw [ditherStep_data]
  split_ifs <;> simp [writeBlack, writeTransparent]

theorem foldl_preserve {β : Type} (P : (ℕ → ℚ) × List ℕ → Prop)
    (f : (ℕ → ℚ) × List ℕ → β → (ℕ → ℚ) × List ℕ) (l : List β)
    (hf : ∀ st b, P st → P (f st b)) :
    ∀ st, P st → P (l.foldl f st) := by
  induction l with
  | nil => exact fun st hst => hst
  | cons a l ih => exact fun st hst => ih (f st a) (hf st a hst)

theorem processRow_length (w h y : ℕ) (st : (ℕ → ℚ) × List ℕ) :
    (processRow w h y st).2.length = st.2.length := by
  rw [processRow]
  exact foldl_preserve (fun s => s.2.length = st.2.length) _ (List.range w)
    (fun s b hs => (ditherStep_length w h s b y).trans hs) st rfl

theorem scanImage_length (w h : ℕ) (st : (ℕ → ℚ) × List ℕ) :
    (scanImage w h st).2.length = st.2.length := by
  rw [scanImage]
  exact foldl_preserve (fun s => s.2.length = st.2.length) _ (List.range h)
    (fun s b hs => (processRow_length w h b s).trans hs) st rfl

/-- The pixel just written by a dithering step always has stencil shape. -/
theorem stencil_step_self (w h : ℕ) (st : (ℕ → ℚ) × List ℕ) (x y : ℕ) :
    StencilAt (ditherStep w h st x y).2 (y * w + x) := by
  rw [ditherStep_data, StencilAt]
  split_ifs with hc
  · refine ⟨?_, ?_, ?_, ?_⟩ <;>
      (rw [getD_writeBlack]; split_ifs <;>
        first | omega | (rw [List.getD_eq_default] <;> omega))
  · refine ⟨?_, ?_, ?_, ?_⟩ <;>
      (rw [getD_writeTransparent]; split_ifs <;>
        first | omega | (rw [List.getD_eq_default] <;> omega))

/-- A dithering step does not touch the bytes of any other pixel. -/
theorem stencil_step_preserve (w h : ℕ) (st : (ℕ → ℚ) × List ℕ) (x y p : ℕ)
    (hp : StencilAt st.2 p) (hne : p ≠ y * w + x) :
    StencilAt (ditherStep w h st x y).2 p := by
  obtain ⟨h0, h1, h2, h3⟩ := hp
  rw [ditherStep_data, StencilAt]
  split_ifs with hc
  · refine ⟨?_, ?_, ?_, ?_⟩ <;> (rw [getD_writeBlack]; split_ifs <;> omega)
  · refine ⟨?_, ?_, ?_, ?_⟩ <;> (rw [getD_writeTransparent]; split_ifs <;> omega)

theorem stencil_step_keep (w h : ℕ) (st : (ℕ → ℚ) × List ℕ) (x y p : ℕ)
    (hp : StencilAt st.2 p) : StencilAt (ditherStep w h st x y).2 p := by
  by_cases hq : p = y * w + x
  · subst hq; exact stencil_step_self w h st x y
  · exact stencil_step_preserve w h st x y p hp hq

theorem processRow_stencil_keep (w h y : ℕ) (st : (ℕ → ℚ) × List ℕ) (p : ℕ)
    (hp : StencilAt st.2 p) : StencilAt (processRow w h y st).2 p := by
  rw [processRow]
  exact foldl_preserve (fun s => StencilAt s.2 p) _ (List.range w)
    (fun s b hs => stencil_step_keep w h s b y p hs) st hp

/-- After the inner loop has processed the first `n` columns of row `y`,
every processed pixel of that row has stencil shape. -/
theorem cols_stencil (w h y : ℕ) (st : (ℕ → ℚ) × List ℕ) :
    ∀ n x0, x0 < n →
      StencilAt (((List.range n).foldl (fun s x => ditherStep w h s x y) st).2)
        (y * w + x0) := by
  intro n
  induction n with
  | zero => exact fun x0 hx0 => absurd hx0 (Nat.not_lt_zero x0)
  | succ n ih =>
    intro x0 hx0
    rw [List.range_succ, List.foldl_append, List.foldl_cons, List.foldl_nil]
    by_cases hx : x0 = n
    · subst hx
      exact stencil_step_self w h _ x0 y
    · exact stencil_step_keep w h _ n y (y * w + x0) (ih x0 (by omega))

/-- After the outer loop has processed the first `m` rows, every pixel of a
processed row has stencil shape. -/
theorem rows_stencil (w h : ℕ) (st : (ℕ → ℚ) × List ℕ) :
    ∀ m y0 x0, y0 < m → x0 < w →
      StencilAt (((List.range m).foldl (fun s y => processRow w h y s) st).2)
        (y0 * w + x0) := by
  intro m
  induction m with
  | zero => exact fun y0 x0 hy0 _ => absurd hy0 (Nat.not_lt_zero y0)
  | succ m ih =>
    intro y0 x0 hy0 hx0
    rw [List.range_succ, List.foldl_append, List.foldl_cons, List.foldl_nil]
    by_cases hy : y0 = m
    · subst hy
      show StencilAt ((processRow w h y0 _).2) (y0 * w + x0)
      rw [processRow]
      exact cols_stencil w h y0 _ w x0 hx0
    · exact processRow_stencil_keep w h m _ (y0 * w + x0) (ih y0 x0 (by omega) hx0)

/-- C1: one step of the per-pixel loop reads the current (possibly already
adjusted) luminance oldPixel = g(y*w+x) from the grayscale buffer, classifies
newPixel = 0 if oldPixel < 60 else 255 (strict less-than), diffuses
error = oldPixel - newPixel, and writes the output pixel as R=0, G=0, B=0 with
alpha 255 when newPixel = 0 and alpha 0 otherwise. -/
theorem c1_pixel_transform (width height : ℕ) (g : ℕ → ℚ) (d : List ℕ)
    (x y : ℕ) (hlen : (y * width + x) * 4 + 3 < d.length) :
    (ditherStep width height (g, d) x y).1
        = distributeErrorGrayscale g x y width height
            (g (y * width + x) - (if g (y * width + x) < 60 then 0 else 255)) ∧
    (ditherStep width height (g, d) x y).2.getD ((y * width + x) * 4) 0 = 0 ∧
    (ditherStep width height (g, d) x y).2.getD ((y * width + x) * 4 + 1) 0 = 0 ∧
    (ditherStep width height (g, d) x y).2.getD ((y * width + x) * 4 + 2) 0 = 0 ∧
    (ditherStep width height (g, d) x y).2.getD ((y * width + x) * 4 + 3) 0
        = (if g (y * width + x) < 60 then 255 else 0) := by
  have hd := ditherStep_data width height (g, d) x y
  dsimp only at hd
  refine ⟨rfl, ?_, ?_, ?_, ?_⟩ <;>
    (rw [hd]; split_ifs <;>
      first
        | (rw [getD_writeBlack]; split_ifs <;> omega)
        | (rw [getD_writeTransparent]; split_ifs <;> omega))

theorem c1_pixel_transform_witness :
    (0 * 1 + 0) * 4 + 3 < ([9, 9, 9, 9] : List ℕ).length ∧
    ((ditherStep 1 1 (fun _ => (0:ℚ), [9, 9, 9, 9]) 0 0).1
        = distributeErrorGrayscale (fun _ => (0:ℚ)) 0 0 1 1
            ((fun _ => (0:ℚ)) (0 * 1 + 0) -
              (if (fun _ => (0:ℚ)) (0 * 1 + 0) < 60 then 0 else 255)) ∧
     (ditherStep 1 1 (fun _ => (0:ℚ), [9, 9, 9, 9]) 0 0).2.getD ((0 * 1 + 0) * 4) 0 = 0 ∧
     (ditherStep 1 1 (fun _ => (0:ℚ), [9, 9, 9, 9]) 0 0).2.getD ((0 * 1 + 0) * 4 + 1) 0 = 0 ∧
     (ditherStep 1 1 (fun _ => (0:ℚ), [9, 9, 9, 9]) 0 0).2.getD ((0 * 1 + 0) * 4 + 2) 0 = 0 ∧
     (ditherStep 1 1 (fun _ => (0:ℚ), [9, 9, 9, 9]) 0 0).2.getD ((0 * 1 + 0) * 4 + 3) 0
        = (if (fun _ => (0:ℚ)) (0 * 1 + 0) < 60 then 255 else 0)) :=
  ⟨by decide, c1_pixel_transform 1 1 (fun _ => (0:ℚ)) [9, 9, 9, 9] 0 0 (by decide)⟩

/-- C3: for a valid input buffer the output has the same width, height and
byte length, and every output pixel has R = G = B = 0 and alpha either 0 or
255 and nothing else. -/
theorem c3_shape_and_stencil (w h : ℕ) (d : List ℕ) (p : ℕ)
    (hlen : d.length = w * h * 4) (hp : p < w * h) :
    (process (ImageData.mk w h d)).width = w ∧
    (process (ImageData.mk w h d)).height = h ∧
    (process (ImageData.mk w h d)).data.length = d.length ∧
    (process (ImageData.mk w h d)).data.getD (p * 4) 0 = 0 ∧
    (process (ImageData.mk w h d)).data.getD (p * 4 + 1) 0 = 0 ∧
    (process (ImageData.mk w h d)).data.getD (p * 4 + 2) 0 = 0 ∧
    ((process (ImageData.mk w h d)).data.getD (p * 4 + 3) 0 = 0 ∨
     (process (ImageData.mk w h d)).data.getD (p * 4 + 3) 0 = 255) := by
  have hw : 0 < w := by
    rcases Nat.eq_zero_or_pos w with h0 | h0
    · rw [h0, Nat.zero_mul] at hp; omega
    · exact h0
  have hh : 0 < h := by
    rcases Nat.eq_zero_or_pos h with h0 | h0
    · rw [h0, Nat.mul_zero] at hp; omega
    · exact h0
  have hsten : StencilAt (process (ImageData.mk w h d)).data p := by
    show StencilAt ((scanImage w h (toGrayscale w h d, d)).2) p
    have hsplit : (p / w) * w + p % w = p := by
      rw [Nat.mul_comm]; exact Nat.div_add_mod p w
    have hdiv : p / w < h := by
      rw [Nat.div_lt_iff_lt_mul hw, Nat.mul_comm h w]; exact hp
    have hmod : p % w < w := Nat.mod_lt p hw
    have := rows_stencil w h (toGrayscale w h d, d) h (p / w) (p % w) hdiv hmod
    rw [hsplit] at this
    rw [scanImage]
    exact this
  obtain ⟨s0, s1, s2, s3⟩ := hsten
  exact ⟨rfl, rfl, scanImage_length w h _, s0, s1, s2, s3⟩

theorem c3_shape_and_stencil_witness :
    (([10, 20, 30, 40] : List ℕ).length = 1 * 1 * 4 ∧ 0 < 1 * 1) ∧
    ((process (ImageData.mk 1 1 [10, 20, 30, 40])).width = 1 ∧
     (process (ImageData.mk 1 1 [10, 20, 30, 40])).height = 1 ∧
     (process (ImageData.mk 1 1 [10, 20, 30, 40])).data.length
        = ([10, 20, 30, 40] : List ℕ).length ∧
     (process (ImageData.mk 1 1 [10, 20, 30, 40])).data.getD (0 * 4) 0 = 0 ∧
     (process (ImageData.mk 1 1 [10, 20, 30, 40])).data.getD (0 * 4 + 1) 0 = 0 ∧
     (process (ImageData.mk 1 1 [10, 20, 30, 40])).data.getD (0 * 4 + 2) 0 = 0 ∧
     ((process (ImageData.mk 1 1 [10, 20, 30, 40])).data.getD (0 * 4 + 3) 0 = 0 ∨
      (process (ImageData.mk 1 1 [10, 20, 30, 40])).data.getD (0 * 4 + 3) 0 = 255)) :=
  ⟨⟨by decide, by decide⟩,
   c3_shape_and_stencil 1 1 [10, 20, 30, 40] 0 (by decide) (by decide)⟩

/-- One dithering step preserves the simulation invariant between two scans
started from the same grayscale buffer, advancing the scan position. -/
theorem step_sim (w h x y n : ℕ) (s1 s2 : (ℕ → ℚ) × List ℕ)
    (hn : n = y * w + x) (hs : SimInv n s1 s2) :
    SimInv (n + 1) (ditherStep w h s1 x y) (ditherStep w h s2 x y) := by
  obtain ⟨hg, hlen, hbytes⟩ := hs
  subst hn
  refine ⟨?_, ?_, ?_⟩
  · show distributeErrorGrayscale s1.1 x y w h _
        = distributeErrorGrayscale s2.1 x y w h _
    rw [hg]
  · rw [ditherStep_length, ditherStep_length, hlen]
  · intro j
    rw [ditherStep_data, ditherStep_data, hg]
    split_ifs with hc
    · rw [getD_writeBlack, getD_writeBlack, hlen]
      split_ifs with h1 h2 h3 h4
      · exact Or.inl rfl
      · exact Or.inl rfl
      · exact Or.inl rfl
      · exact Or.inl rfl
      · rcases hbytes j with heq | ⟨hm, hge⟩
        · exact Or.inl heq
        · by_cases hj4 : (y * w + x + 1) * 4 ≤ j
          · exact Or.inr ⟨hm, hj4⟩
          · have e2 : s2.2.length ≤ j := by omega
            have e1 : s1.2.length ≤ j := by omega
            exact Or.inl (by
              rw [List.getD_eq_default _ _ e1, List.getD_eq_default _ _ e2])
    · rw [getD_writeTransparent, getD_writeTransparent, hlen]
      split_ifs with h1 h2 h3 h4
      · exact Or.inl rfl
      · exact Or.inl rfl
      · exact Or.inl rfl
      · exact Or.inl rfl
      · rcases hbytes j with heq | ⟨hm, hge⟩
        · exact Or.inl heq
        · by_cases hj4 : (y * w + x + 1) * 4 ≤ j
          · exact Or.inr ⟨hm, hj4⟩
          · have e2 : s2.2.length ≤ j := by omega
            have e1 : s1.2.length ≤ j := by omega
            exact Or.inl (by
              rw [List.getD_eq_default _ _ e1, List.getD_eq_default _ _ e2])

theorem cols_sim (w h y : ℕ) (s1 s2 : (ℕ → ℚ) × List ℕ) :
    ∀ n, SimInv (y * w) s1 s2 →
      SimInv (y * w + n)
        ((List.range n).foldl (fun s x => ditherStep w h s x y) s1)
        ((List.range n).foldl (fun s x => ditherStep w h s x y) s2) := by
  intro n
  induction n with
  | zero => exact fun hs => hs
  | succ n ih =>
    intro hs
    rw [List.range_succ, List.foldl_append, List.foldl_append]
    exact step_sim w h n y (y * w + n) _ _ rfl (ih hs)

theorem rows_sim (w h : ℕ) (s1 s2 : (ℕ → ℚ) × List ℕ) :
    ∀ m, SimInv 0 s1 s2 →
      SimInv (m * w)
        ((List.range m).foldl (fun s y => processRow w h y s) s1)
        ((List.range m).foldl (fun s y => processRow w h y s) s2) := by
  intro m
  induction m with
  | zero =>
    intro hs
    rw [Nat.zero_mul]
    exact hs
  | succ m ih =>
    intro hs
    rw [show (m + 1) * w = m * w + w from by ring, List.range_succ,
        List.foldl_append, List.foldl_append]
    exact cols_sim w h m _ _ w (ih hs)

/-- C4: every initial grayscale entry is 0.299*R + 0.587*G + 0.114*B of its
pixel (computed for all pixels before the scan starts, the structure of
`processState`), and the alpha channel is ignored: two valid buffers equal on
all non-alpha bytes produce identical outputs. -/
theorem c4_grayscale_init (w h : ℕ) (d1 d2 : List ℕ) (i : ℕ)
    (hlen1 : d1.length = w * h * 4) (hlen2 : d2.length = w * h * 4)
    (hrgb : ∀ j, j % 4 ≠ 3 → d1.getD j 0 = d2.getD j 0) (hi : i < w * h) :
    toGrayscale w h d1 i
      = 0.299 * (d1.getD (i * 4) 0 : ℚ) + 0.587 * (d1.getD (i * 4 + 1) 0 : ℚ)
        + 0.114 * (d1.getD (i * 4 + 2) 0 : ℚ) ∧
    process (ImageData.mk w h d1) = process (ImageData.mk w h d2) := by
  constructor
  · simp only [toGrayscale, luminance]
    rw [if_pos hi]
  · have hginit : toGrayscale w h d1 = toGrayscale w h d2 := by
      funext k
      simp only [toGrayscale, luminance]
      by_cases hk : k < w * h
      · rw [if_pos hk, if_pos hk, hrgb (k * 4) (by omega),
            hrgb (k * 4 + 1) (by omega), hrgb (k * 4 + 2) (by omega)]
      · rw [if_neg hk, if_neg hk]
    have hs0 : SimInv 0 (toGrayscale w h d1, d1) (toGrayscale w h d2, d2) := by
      refine ⟨hginit, by rw [hlen1, hlen2], fun j => ?_⟩
      by_cases hj : j % 4 = 3
      · exact Or.inr ⟨hj, by omega⟩
      · exact Or.inl (hrgb j hj)
    have hfin := rows_sim w h _ _ h hs0
    obtain ⟨-, hlenf, hbytesf⟩ := hfin
    have hdata : (scanImage w h (toGrayscale w h d1, d1)).2
        = (scanImage w h (toGrayscale w h d2, d2)).2 := by
      apply List.ext_getElem
      · exact hlenf
      · intro n h1 h2
        rcases hbytesf n with heq | ⟨hm, hge⟩
        · rw [← List.getD_eq_getElem _ 0 h1, ← List.getD_eq_getElem _ 0 h2]
          exact heq
        · exfalso
          have hl1 : ((scanImage w h (toGrayscale w h d1, d1)).2).length
              = w * h * 4 := by
            rw [scanImage_length]; exact hlen1
          have hcm : h * w = w * h := Nat.mul_comm h w
          omega
    show ImageData.mk w h (scanImage w h (toGrayscale w h d1, d1)).2
        = ImageData.mk w h (scanImage w h (toGrayscale w h d2, d2)).2
    rw [hdata]

theorem c4_grayscale_init_witness :
    (([5, 5, 5, 5] : List ℕ).length = 1 * 1 * 4 ∧ (0:ℕ) < 1 * 1) ∧
    (toGrayscale 1 1 [5, 5, 5, 5] 0
        = 0.299 * (([5, 5, 5, 5] : List ℕ).getD (0 * 4) 0 : ℚ)
          + 0.587 * (([5, 5, 5, 5] : List ℕ).getD (0 * 4 + 1) 0 : ℚ)
          + 0.114 * (([5, 5, 5, 5] : List ℕ).getD (0 * 4 + 2) 0 : ℚ) ∧
     process (ImageData.mk 1 1 [5, 5, 5, 5]) = process (ImageData.mk 1 1 [5, 5, 5, 5])) :=
  ⟨⟨by decide, by decide⟩,
   c4_grayscale_init 1 1 [5, 5, 5, 5] [5, 5, 5, 5] 0 (by decide) (by decide)
     (fun j hj => rfl) (by decide)⟩

/-- A step on an all-zero grayscale buffer classifies black (0 < 60), writes
an opaque black pixel and diffuses a zero error, leaving the buffer at zero. -/
theorem zero_step (w h : ℕ) (d : List ℕ) (x y : ℕ) :
    ditherStep w h ((fun _ => (0:ℚ)), d) x y
      = ((fun _ => (0:ℚ)), writeBlack d ((y * w + x) * 4)) := by
  simp only [ditherStep]
  norm_num [distribute_zero]

theorem black_step_preserve (w h : ℕ) (st : (ℕ → ℚ) × List ℕ) (x y p : ℕ)
    (hp : BlackAt st.2 p) (hne : p ≠ y * w + x) :
    BlackAt (ditherStep w h st x y).2 p := by
  obtain ⟨h0, h1, h2, h3⟩ := hp
  rw [ditherStep_data, BlackAt]
  split_ifs with hc
  · refine ⟨?_, ?_, ?_, ?_⟩ <;> (rw [getD_writeBlack]; split_ifs <;> omega)
  · refine ⟨?_, ?_, ?_, ?_⟩ <;> (rw [getD_writeTransparent]; split_ifs <;> omega)

theorem black_row_preserve (w h y : ℕ) (st : (ℕ → ℚ) × List ℕ) (p : ℕ)
    (hp : BlackAt st.2 p) (hlt : p < y * w) :
    BlackAt (processRow w h y st).2 p := by
  rw [processRow]
  exact foldl_preserve (fun s => BlackAt s.2 p) _ (List.range w)
    (fun s b hs => black_step_preserve w h s b y p hs (by omega)) st hp

/-- Scanning a row on an all-zero grayscale buffer keeps the buffer at zero,
keeps the data length, and paints every processed in-bounds pixel black. -/
theorem cols_black (w h y : ℕ) :
    ∀ n (st : (ℕ → ℚ) × List ℕ), st.1 = (fun _ => (0:ℚ)) →
      ((List.range n).foldl (fun s x => ditherStep w h s x y) st).1 = (fun _ => (0:ℚ)) ∧
      ((List.range n).foldl (fun s x => ditherStep w h s x y) st).2.length = st.2.length ∧
      (∀ x0, x0 < n → (y * w + x0) * 4 + 3 < st.2.length →
        BlackAt (((List.range n).foldl (fun s x => ditherStep w h s x y) st).2)
          (y * w + x0)) := by
  intro n
  induction n with
  | zero =>
    intro st hg
    exact ⟨hg, rfl, fun x0 hx0 _ => absurd hx0 (Nat.not_lt_zero x0)⟩
  | succ n ih =>
    intro st hg
    obtain ⟨ihg, ihlen, ihblack⟩ := ih st hg
    have hmid : (List.range n).foldl (fun s x => ditherStep w h s x y) st
        = ((fun _ => (0:ℚ)),
           ((List.range n).foldl (fun s x => ditherStep w h s x y) st).2) := by
      rw [← ihg]
    have hstep : (List.range (n + 1)).foldl (fun s x => ditherStep w h s x y) st
        = ((fun _ => (0:ℚ)),
           writeBlack (((List.range n).foldl (fun s x => ditherStep w h s x y) st).2)
             ((y * w + n) * 4)) := by
      rw [List.range_succ, List.foldl_append, hmid]
      exact zero_step w h _ n y
    rw [hstep]
    refine ⟨rfl, ?_, ?_⟩
    · show (writeBlack _ _).length = st.2.length
      rw [writeBlack]
      simp only [List.length_set]
      exact ihlen
    · intro x0 hx0 hb
      by_cases hx : x0 = n
      · subst hx
        have hblen : (y * w + x0) * 4 + 3
            < (((List.range x0).foldl (fun s x => ditherStep w h s x y) st).2).length := by
          rw [ihlen]; exact hb
        refine ⟨?_, ?_, ?_, ?_⟩ <;> (rw [getD_writeBlack]; split_ifs <;> omega)
      · obtain ⟨b0, b1, b2, b3⟩ := ihblack x0 (by omega) hb
        refine ⟨?_, ?_, ?_, ?_⟩ <;> (rw [getD_writeBlack]; split_ifs <;> omega)

/-- Scanning the whole image on an all-zero grayscale buffer paints every
in-bounds pixel opaque black. -/
theorem rows_black (w h : ℕ) :
    ∀ m (st : (ℕ → ℚ) × List ℕ), st.1 = (fun _ => (0:ℚ)) →
      ((List.range m).foldl (fun s y => processRow w h y s) st).1 = (fun _ => (0:ℚ)) ∧
      ((List.range m).foldl (fun s y => processRow w h y s) st).2.length = st.2.length ∧
      (∀ y0 x0, y0 < m → x0 < w → (y0 * w + x0) * 4 + 3 < st.2.length →
        BlackAt (((List.range m).foldl (fun s y => processRow w h y s) st).2)
          (y0 * w + x0)) := by
  intro m
  induction m with
  | zero =>
    intro st hg
    exact ⟨hg, rfl, fun y0 x0 hy0 _ _ => absurd hy0 (Nat.not_lt_zero y0)⟩
  | succ m ih =>
    intro st hg
    obtain ⟨ihg, ihlen, ihblack⟩ := ih st hg
    obtain ⟨cg, clen, cblack⟩ := cols_black w h m w
      ((List.range m).foldl (fun s y => processRow w h y s) st) ihg
    have hrow : (List.range (m + 1)).foldl (fun s y => processRow w h y s) st
        = processRow w h m ((List.range m).foldl (fun s y => processRow w h y s) st) := by
      rw [List.range_succ, List.foldl_append]
      rfl
    rw [hrow]
    refine ⟨?_, ?_, ?_⟩
    · rw [processRow]; exact cg
    · rw [processRow]; exact clen.trans ihlen
    · intro y0 x0 hy0 hx0 hb
      by_cases hy : y0 = m
      · subst hy
        have hb2 : (y0 * w + x0) * 4 + 3
            < (((List.range y0).foldl (fun s y => processRow w h y s) st).2).length := by
          rw [ihlen]; exact hb
        rw [processRow]
        exact cblack x0 hx0 hb2
      · have hreach : y0 * w + w ≤ m * w := by
          calc y0 * w + w = (y0 + 1) * w := by ring
            _ ≤ m * w := Nat.mul_le_mul_right w (by omega)
        exact black_row_preserve w h m _ (y0 * w + x0)
          (ihblack y0 x0 (by omega) hx0 hb) (by omega)

/-- Every output pixel of a first pass has stencil shape. -/
theorem process_stencil (w h : ℕ) (d : List ℕ) (k : ℕ) (hw : 0 < w)
    (hk : k < w * h) : StencilAt (process (ImageData.mk w h d)).data k := by
  show StencilAt ((scanImage w h (toGrayscale w h d, d)).2) k
  have hsplit : (k / w) * w + k % w = k := by
    rw [Nat.mul_comm]; exact Nat.div_add_mod k w
  have hdiv : k / w < h := by
    rw [Nat.div_lt_iff_lt_mul hw, Nat.mul_comm h w]; exact hk
  have hmod : k % w < w := Nat.mod_lt k hw
  have hst := rows_stencil w h (toGrayscale w h d, d) h (k / w) (k % w) hdiv hmod
  rw [hsplit] at hst
  rw [scanImage]
  exact hst

/-- C10: applying `process` a second time to any valid input yields a buffer
in which every pixel is opaque black, because the first pass zeroes all colour
channels so every second-pass luminance is 0 < 60; consequently, whenever the
first-pass output contains a transparent pixel (alpha 0 at some pixel q),
re-dithering is not idempotent. -/
theorem c10_second_pass_black (w h : ℕ) (d : List ℕ) (p q : ℕ)
    (hlen : d.length = w * h * 4) (hp : p < w * h) (hq : q < w * h) :
    (process (process (ImageData.mk w h d))).data.getD (p * 4) 0 = 0 ∧
    (process (process (ImageData.mk w h d))).data.getD (p * 4 + 1) 0 = 0 ∧
    (process (process (ImageData.mk w h d))).data.getD (p * 4 + 2) 0 = 0 ∧
    (process (process (ImageData.mk w h d))).data.getD (p * 4 + 3) 0 = 255 ∧
    ((process (ImageData.mk w h d)).data.getD (q * 4 + 3) 0 = 0 →
      process (process (ImageData.mk w h d)) ≠ process (ImageData.mk w h d)) := by
  have hw : 0 < w := by
    rcases Nat.eq_zero_or_pos w with h0 | h0
    · rw [h0, Nat.zero_mul] at hp; omega
    · exact h0
  have hlen1 : (process (ImageData.mk w h d)).data.length = w * h * 4 := by
    show (scanImage w h (toGrayscale w h d, d)).2.length = w * h * 4
    rw [scanImage_length]; exact hlen
  have hg0 : toGrayscale w h (process (ImageData.mk w h d)).data
      = (fun _ => (0:ℚ)) := by
    funext k
    simp only [toGrayscale, luminance]
    by_cases hk : k < w * h
    · obtain ⟨s0, s1, s2, -⟩ := process_stencil w h d k hw hk
      rw [if_pos hk, s0, s1, s2]
      norm_num
    · rw [if_neg hk]
  have hblack : ∀ r, r < w * h →
      BlackAt (process (process (ImageData.mk w h d))).data r := by
    intro r hr
    have hrep : (process (process (ImageData.mk w h d))).data
        = (scanImage w h (toGrayscale w h (process (ImageData.mk w h d)).data,
            (process (ImageData.mk w h d)).data)).2 := rfl
    rw [hrep, hg0, scanImage]
    obtain ⟨-, -, hbl⟩ := rows_black w h h
      ((fun _ => (0:ℚ)), (process (ImageData.mk w h d)).data) rfl
    have hsplit : (r / w) * w + r % w = r := by
      rw [Nat.mul_comm]; exact Nat.div_add_mod r w
    have hdiv : r / w < h := by
      rw [Nat.div_lt_iff_lt_mul hw, Nat.mul_comm h w]; exact hr
    have hmod : r % w < w := Nat.mod_lt r hw
    have hb : ((r / w) * w + r % w) * 4 + 3
        < ((((fun _ => (0:ℚ)), (process (ImageData.mk w h d)).data) :
            (ℕ → ℚ) × List ℕ)).2.length := by
      rw [hsplit]
      show r * 4 + 3 < (process (ImageData.mk w h d)).data.length
      rw [hlen1]; omega
    have hba := hbl (r / w) (r % w) hdiv hmod hb
    rw [hsplit] at hba
    exact hba
  obtain ⟨b0, b1, b2, b3⟩ := hblack p hp
  refine ⟨b0, b1, b2, b3, fun hqa heq => ?_⟩
  have hqb := (hblack q hq).2.2.2
  rw [heq] at hqb
  omega

theorem c10_second_pass_black_witness :
    (([200, 200, 200, 0] : List ℕ).length = 1 * 1 * 4 ∧ (0:ℕ) < 1 * 1) ∧
    ((process (process (ImageData.mk 1 1 [200, 200, 200, 0]))).data.getD (0 * 4) 0 = 0 ∧
     (process (process (ImageData.mk 1 1 [200, 200, 200, 0]))).data.getD (0 * 4 + 1) 0 = 0 ∧
     (process (process (ImageData.mk 1 1 [200, 200, 200, 0]))).data.getD (0 * 4 + 2) 0 = 0 ∧
     (process (process (ImageData.mk 1 1 [200, 200, 200, 0]))).data.getD (0 * 4 + 3) 0 = 255 ∧
     ((process (ImageData.mk 1 1 [200, 200, 200, 0])).data.getD (0 * 4 + 3) 0 = 0 →
       process (process (ImageData.mk 1 1 [200, 200, 200, 0]))
          ≠ process (ImageData.mk 1 1 [200, 200, 200, 0]))) :=
  ⟨⟨by decide, by decide⟩,
   c10_second_pass_black 1 1 [200, 200, 200, 0] 0 0 (by decide) (by decide)
     (by decide)⟩
